import Mathlib

/-!
Verification development for the IdeaJournal application (`app.py`).

The definitions below are a shallow embedding of the program's core:
the `clean` folder-name sanitizer, the `unique` collision-avoidance loop,
the idea repository operations (`save_idea`, `get_idea`, `delete_idea`,
`add_update`), the signup handler, and the encrypted credential store
(`save_users` / `load_users`).  Machine-level and library-level behaviour
(Python string methods, `json`, Fernet) is modelled explicitly where the
program relies on it; each such model is documented at its definition.
-/

namespace IdeaJournal

/-! ## Character classes

`clean` is `''.join(c for c in s if c.isalnum() or c in ' _-').strip()`.

Python's `str.isalnum` is Unicode-aware.  `pyIsAlnum` models it exactly on
the code points U+0000 .. U+00FF (ASCII and Latin-1): besides the ASCII
letters and digits it accepts the Latin-1 letters U+00C0..U+00FF except
the two symbols × (U+00D7) and ÷ (U+00F7), the letters ª µ º, and the
numeric characters ² ³ ¹ ¼ ½ ¾.  Code points above U+00FF are mapped to
`false`; no string considered in this development uses them.
-/
def pyIsAlnum (c : Char) : Bool :=
  let n := c.toNat
  c.isAlphanum ||
    n == 0xAA || n == 0xB2 || n == 0xB3 || n == 0xB5 || n == 0xB9 || n == 0xBA ||
    n == 0xBC || n == 0xBD || n == 0xBE ||
    (0xC0 ≤ n && n ≤ 0xFF && !(n == 0xD7) && !(n == 0xF7))

/-- The guard of the comprehension in `clean`: `c.isalnum() or c in ' _-'`. -/
def keepChar (c : Char) : Bool :=
  pyIsAlnum c || c = ' ' || c = '_' || c = '-'

/-- Python `str.isspace` (the class stripped by `str.strip()`), modelled on
U+0000 .. U+00FF: space, TAB..CR (U+0009..U+000D), FS..US (U+001C..U+001F),
NEL (U+0085) and NBSP (U+00A0). -/
def pyIsSpace (c : Char) : Bool :=
  let n := c.toNat
  n == 0x20 || (0x09 ≤ n && n ≤ 0x0D) || (0x1C ≤ n && n ≤ 0x1F) || n == 0x85 || n == 0xA0

/-- Python `str.strip()` on a character list: drop whitespace from the front,
then from the back. -/
def pyStripList (l : List Char) : List Char :=
  ((l.dropWhile pyIsSpace).reverse.dropWhile pyIsSpace).reverse

/-- Python `str.strip()`. -/
def pyStrip (s : String) : String :=
  ⟨pyStripList s.data⟩

/-- `clean` from `app.py` (line 98):
`''.join(c for c in s if c.isalnum() or c in ' _-').strip()`. -/
def clean (s : String) : String :=
  pyStrip ⟨s.data.filter keepChar⟩

/-! ### Basic facts about stripping -/

theorem dropWhile_dropWhile (p : Char → Bool) (l : List Char) :
    (l.dropWhile p).dropWhile p = l.dropWhile p := by
  induction l with
  | nil => rfl
  | cons c cs ih =>
    by_cases h : p c
    · simp [List.dropWhile, h, ih]
    · simp [List.dropWhile, h]

theorem exists_prefix_dropWhile (p : Char → Bool) (l : List Char) :
    ∃ t, l = t ++ l.dropWhile p := by
  induction l with
  | nil => exact ⟨[], rfl⟩
  | cons c cs ih =>
    by_cases h : p c
    · obtain ⟨t, ht⟩ := ih
      exact ⟨c :: t, by simp [List.dropWhile, h]; exact ht⟩
    · exact ⟨[], by simp [List.dropWhile, h]⟩

theorem mem_of_mem_dropWhile (p : Char → Bool) (l : List Char) (c : Char)
    (h : c ∈ l.dropWhile p) : c ∈ l := by
  obtain ⟨t, ht⟩ := exists_prefix_dropWhile p l
  rw [ht]; exact List.mem_append_right t h

theorem head?_dropWhile_false (p : Char → Bool) (l : List Char) (a : Char)
    (h : (l.dropWhile p).head? = some a) : p a = false := by
  induction l with
  | nil => simp [List.dropWhile] at h
  | cons c cs ih =>
    by_cases hp : p c
    · rw [List.dropWhile_cons_of_pos hp] at h; exact ih h
    · rw [List.dropWhile_cons_of_neg hp] at h
      simp at h
      rw [← h]
      exact Bool.of_not_eq_true hp

theorem dropWhile_eq_self_of_head (p : Char → Bool) (l : List Char)
    (h : ∀ a, l.head? = some a → p a = false) : l.dropWhile p = l := by
  cases l with
  | nil => rfl
  | cons c cs =>
    have := h c rfl
    simp [List.dropWhile, this]

theorem head?_append_some (l₁ l₂ : List Char) (a : Char)
    (h : l₁.head? = some a) : (l₁ ++ l₂).head? = some a := by
  cases l₁ with
  | nil => simp at h
  | cons b bs => simpa using h

theorem mem_pyStripList (l : List Char) (c : Char) (h : c ∈ pyStripList l) : c ∈ l := by
  unfold pyStripList at h
  rw [List.mem_reverse] at h
  have h2 := mem_of_mem_dropWhile pyIsSpace _ _ h
  rw [List.mem_reverse] at h2
  exact mem_of_mem_dropWhile pyIsSpace _ _ h2

theorem pyStripList_idem (l : List Char) :
    pyStripList (pyStripList l) = pyStripList l := by
  unfold pyStripList
  set A := l.dropWhile pyIsSpace with hA
  set B := ((A.reverse.dropWhile pyIsSpace).reverse : List Char) with hB
  have hBrev : B.reverse = A.reverse.dropWhile pyIsSpace := by
    rw [hB, List.reverse_reverse]
  -- `B` is left-stripped: it is a prefix of `A`, whose head is not whitespace.
  have hBdrop : B.dropWhile pyIsSpace = B := by
    apply dropWhile_eq_self_of_head
    intro a ha
    -- B nonempty with head a; A = B ++ C for some C, so A has head a
    obtain ⟨t, ht⟩ := exists_prefix_dropWhile pyIsSpace A.reverse
    have hAB : A = B ++ t.reverse := by
      rw [hB]
      have : A.reverse = t ++ A.reverse.dropWhile pyIsSpace := ht
      calc A = A.reverse.reverse := (List.reverse_reverse A).symm
        _ = (t ++ A.reverse.dropWhile pyIsSpace).reverse := by rw [← this]
        _ = (A.reverse.dropWhile pyIsSpace).reverse ++ t.reverse := by
              rw [List.reverse_append]
    have hhead : A.head? = some a := by
      rw [hAB]
      exact head?_append_some B t.reverse a ha
    exact head?_dropWhile_false pyIsSpace l a (by rw [← hA]; exact hhead)
  rw [hBdrop, hBrev, dropWhile_dropWhile]

theorem pyStrip_pyStrip (s : String) : pyStrip (pyStrip s) = pyStrip s := by
  unfold pyStrip
  exact congrArg String.mk (pyStripList_idem s.data)

theorem mem_clean_keepChar (s : String) (c : Char) (h : c ∈ (clean s).data) :
    keepChar c = true := by
  unfold clean pyStrip at h
  have h2 := mem_pyStripList _ _ h
  simp at h2
  exact h2.2

/-- `clean` is idempotent (helper; the claim theorem restates this). -/
theorem clean_clean (s : String) : clean (clean s) = clean s := by
  unfold clean
  have hfilter : ((pyStrip ⟨s.data.filter keepChar⟩).data.filter keepChar)
      = (pyStrip ⟨s.data.filter keepChar⟩).data := by
    apply List.filter_eq_self.mpr
    intro a ha
    exact mem_clean_keepChar s a ha
  rw [hfilter]
  unfold pyStrip
  simp only [String.data]
  exact congrArg String.mk (pyStripList_idem _)

theorem clean_empty : clean "" = "" := rfl

theorem clean_ne_empty_of (t : String) (h : clean t ≠ "") : t ≠ "" := by
  intro he
  rw [he] at h
  exact h clean_empty

/-! ## Decimal rendering

The disambiguator in `unique` is built with the f-string `f"{name} ({i})"`,
which renders `i` in decimal.  `natToStr` is that decimal rendering
(least-significant digit first in the accumulator, then reversed). -/

def decDigit (d : Nat) : Char :=
  match d with
  | 0 => '0' | 1 => '1' | 2 => '2' | 3 => '3' | 4 => '4'
  | 5 => '5' | 6 => '6' | 7 => '7' | 8 => '8' | _ => '9'

def natDigitsAux : Nat → Nat → List Char
  | 0, _ => []
  | _ + 1, 0 => []
  | fuel + 1, n + 1 => decDigit ((n + 1) % 10) :: natDigitsAux fuel ((n + 1) / 10)

def natToStr (n : Nat) : String :=
  if n = 0 then "0" else ⟨(natDigitsAux n n).reverse⟩

/-- Left inverse used to prove that decimal rendering is injective. -/
def undigits : List Char → Nat
  | [] => 0
  | c :: cs => (c.toNat - 48) + 10 * undigits cs

theorem decDigit_toNat (d : Nat) (h : d < 10) : (decDigit d).toNat = 48 + d := by
  interval_cases d <;> rfl

theorem undigits_natDigitsAux (fuel n : Nat) (h : n ≤ fuel) :
    undigits (natDigitsAux fuel n) = n := by
  induction fuel generalizing n with
  | zero =>
    have : n = 0 := Nat.le_zero.mp h
    subst this
    rfl
  | succ fuel ih =>
    cases n with
    | zero => rfl
    | succ m =>
      have hdiv : (m + 1) / 10 ≤ fuel := by
        have h1 : (m + 1) / 10 < m + 1 := Nat.div_lt_self (Nat.succ_pos m) (by norm_num)
        omega
      simp only [natDigitsAux, undigits, ih _ hdiv]
      rw [decDigit_toNat _ (Nat.mod_lt _ (by norm_num))]
      omega

theorem natToStr_injOn (m n : Nat) (hm : 1 ≤ m) (hn : 1 ≤ n)
    (h : natToStr m = natToStr n) : m = n := by
  unfold natToStr at h
  rw [if_neg (by omega), if_neg (by omega)] at h
  have hdata : (natDigitsAux m m).reverse = (natDigitsAux n n).reverse :=
    congrArg String.data h
  have hlist : natDigitsAux m m = natDigitsAux n n := by
    have := congrArg List.reverse hdata
    simpa using this
  have := congrArg undigits hlist
  rwa [undigits_natDigitsAux m m le_rfl, undigits_natDigitsAux n n le_rfl] at this

theorem natToStr_ne_empty (n : Nat) (h : 1 ≤ n) : natToStr n ≠ "" := by
  unfold natToStr
  rw [if_neg (by omega)]
  intro he
  have : (natDigitsAux n n).reverse = [] := congrArg String.data he
  cases n with
  | zero => omega
  | succ m => simp [natDigitsAux] at this

/-! ## The `unique` collision-avoidance loop (`app.py` lines 101-107)

```
def unique(name):
    n = name
    i = 1
    while os.path.exists(os.path.join(IDEAS, n)):
        i += 1
        n = f"{name} ({i})"
    return n
```

`cand name i` is the candidate checked at loop index `i` (`name` itself at
`i = 1`).  `existsName` models `os.path.exists(os.path.join(IDEAS, n))` over
the list of currently existing idea folders; note that for `n = ""` the
join yields the `IDEAS` directory itself (with a trailing separator), which
always exists — hence the `n = ""` disjunct.

The loop is embedded with explicit fuel; `folders.length + 2` candidates
always include a free one because distinct indices give distinct candidate
names, so the fallback arm (fuel exhausted) is unreachable whenever the
characterization lemmas below are applied. -/

def cand (name : String) (i : Nat) : String :=
  if i ≤ 1 then name else name ++ " (" ++ natToStr i ++ ")"

def existsName (folders : List String) (n : String) : Bool :=
  n = "" || decide (n ∈ folders)

def uniqueSearch (folders : List String) (name : String) : Nat → Nat → String
  | i, 0 => cand name i
  | i, fuel + 1 =>
    if existsName folders (cand name i) then uniqueSearch folders name (i + 1) fuel
    else cand name i

def unique (folders : List String) (name : String) : String :=
  uniqueSearch folders name 1 (folders.length + 2)

theorem uniqueSearch_spec (folders : List String) (name : String)
    (m : Nat) (hfree : existsName folders (cand name m) = false) :
    ∀ fuel i, i ≤ m → m - i < fuel →
    (∀ j, i ≤ j → j < m → existsName folders (cand name j) = true) →
    uniqueSearch folders name i fuel = cand name m := by
  intro fuel
  induction fuel with
  | zero => intro i _ h2 _; omega
  | succ fuel ih =>
    intro i h1 h2 hocc
    by_cases hi : i = m
    · subst hi
      simp [uniqueSearch, hfree]
    · have hlt : i < m := lt_of_le_of_ne h1 hi
      have : existsName folders (cand name i) = true := hocc i le_rfl hlt
      simp only [uniqueSearch, this, if_true]
      exact ih (i + 1) hlt (by omega) (fun j hj1 hj2 => hocc j (by omega) hj2)

theorem unique_spec (folders : List String) (name : String) (m : Nat)
    (h1 : 1 ≤ m) (h2 : m ≤ folders.length + 2)
    (hfree : existsName folders (cand name m) = false)
    (hocc : ∀ j, 1 ≤ j → j < m → existsName folders (cand name j) = true) :
    unique folders name = cand name m :=
  uniqueSearch_spec folders name m hfree (folders.length + 2) 1 h1 (by omega) hocc

/-! ### Candidate names are pairwise distinct -/

theorem cand_one (name : String) : cand name 1 = name := rfl

theorem cand_ge_two (name : String) (i : Nat) (h : 2 ≤ i) :
    cand name i = name ++ " (" ++ natToStr i ++ ")" := by
  unfold cand
  rw [if_neg (by omega)]

theorem string_append_data (a b : String) : (a ++ b).data = a.data ++ b.data := by
  cases a; cases b; rfl

theorem string_data_inj (a b : String) (h : a.data = b.data) : a = b := by
  cases a; cases b; exact congrArg String.mk h

theorem natToStr_data_ne_nil (n : Nat) (h : 1 ≤ n) : (natToStr n).data ≠ [] := by
  intro he
  exact natToStr_ne_empty n h (string_data_inj _ "" he)

theorem cand_inj (name : String) (i j : Nat) (hi : 1 ≤ i) (hj : 1 ≤ j)
    (h : cand name i = cand name j) : i = j := by
  rcases Nat.lt_or_ge i 2 with hi2 | hi2 <;> rcases Nat.lt_or_ge j 2 with hj2 | hj2
  · omega
  · exfalso
    have : i = 1 := by omega
    subst this
    rw [cand_one, cand_ge_two name j hj2] at h
    have hd := congrArg String.data h
    simp only [string_append_data, List.append_assoc] at hd
    have hlen := congrArg List.length hd
    simp only [List.length_append] at hlen
    simp [String.data] at hlen
  · exfalso
    have : j = 1 := by omega
    subst this
    rw [cand_one, cand_ge_two name i hi2] at h
    have hd := congrArg String.data h.symm
    simp only [string_append_data, List.append_assoc] at hd
    have hlen := congrArg List.length hd
    simp only [List.length_append] at hlen
    simp [String.data] at hlen
  · rw [cand_ge_two name i hi2, cand_ge_two name j hj2] at h
    have hd := congrArg String.data h
    simp only [string_append_data, List.append_assoc] at hd
    have h1 := List.append_cancel_left hd
    have h2 := List.append_cancel_left h1
    have h3 := List.append_cancel_right h2
    exact natToStr_injOn i j (by omega) (by omega) (string_data_inj _ _ h3)

theorem cand_ne_empty (name : String) (i : Nat) (h : 2 ≤ i) : cand name i ≠ "" := by
  rw [cand_ge_two name i h]
  intro he
  have hd := congrArg String.data he
  simp only [string_append_data, List.append_assoc] at hd
  have := congrArg List.length hd
  simp at this

/-! ## JSON values and Python dictionaries

Idea payloads arrive as `request.json`, i.e. arbitrary JSON objects, and
the stored `idea.json` document is such an object as well.  `JVal` is the
JSON value type; an object is an insertion-ordered association list, which
is how Python dictionaries behave.  `jTruthy` is Python truthiness on
these values (`if not data.get('title')`, `data.get('dateCreated') or …`). -/

inductive JVal where
  | str (s : String)
  | num (n : Int)
  | bool (b : Bool)
  | null
  | arr (elems : List JVal)
  | obj (fields : List (String × JVal))
deriving Repr

/-- A JSON object / Python dict: insertion-ordered key-value pairs. -/
abbrev Obj := List (String × JVal)

def jTruthy : JVal → Bool
  | .str s => !(s == "")
  | .num n => !(n == 0)
  | .bool b => b
  | .null => false
  | .arr l => !l.isEmpty
  | .obj f => !f.isEmpty

/-- `d.get(k)` on an insertion-ordered association list (first match). -/
def lookupA {α : Type} : List (String × α) → String → Option α
  | [], _ => none
  | (k, v) :: rest, key => if k = key then some v else lookupA rest key

/-- `d[k] = v`: replace the value in place if the key is present, otherwise
append the new binding at the end (Python dict insertion order). -/
def setA {α : Type} : List (String × α) → String → α → List (String × α)
  | [], key, val => [(key, val)]
  | (k, v) :: rest, key, val =>
    if k = key then (k, val) :: rest else (k, v) :: setA rest key val

/-- `d.setdefault(k, v)` (only its effect on the dict; the returned list
object is handled at the use sites). -/
def setdefaultA {α : Type} (o : List (String × α)) (key : String) (val : α) :
    List (String × α) :=
  match lookupA o key with
  | some _ => o
  | none => o ++ [(key, val)]

theorem lookupA_setA_self {α : Type} (o : List (String × α)) (k : String) (v : α) :
    lookupA (setA o k v) k = some v := by
  induction o with
  | nil => simp [setA, lookupA]
  | cons p rest ih =>
    obtain ⟨pk, pv⟩ := p
    by_cases h : pk = k
    · simp [setA, h, lookupA]
    · simp [setA, h, lookupA, ih]

theorem lookupA_setA_ne {α : Type} (o : List (String × α)) (k k' : String) (v : α)
    (h : k' ≠ k) : lookupA (setA o k v) k' = lookupA o k' := by
  induction o with
  | nil =>
    simp only [setA, lookupA]
    rw [if_neg (Ne.symm h)]
  | cons p rest ih =>
    obtain ⟨pk, pv⟩ := p
    by_cases hp : pk = k
    · subst hp
      simp only [setA, if_pos rfl, lookupA]
      rw [if_neg (Ne.symm h), if_neg (Ne.symm h)]
    · simp only [setA, if_neg hp, lookupA]
      by_cases hp' : pk = k'
      · simp [hp']
      · simp [hp', ih]

theorem lookupA_append_none {α : Type} (o : List (String × α)) (k : String) (v : α)
    (h : lookupA o k = none) : lookupA (o ++ [(k, v)]) k = some v := by
  induction o with
  | nil => simp [lookupA]
  | cons p rest ih =>
    obtain ⟨pk, pv⟩ := p
    by_cases hp : pk = k
    · simp [lookupA, hp] at h
    · simp [lookupA, hp] at h ⊢
      exact ih h

theorem lookupA_append_ne {α : Type} (o : List (String × α)) (k k' : String) (v : α)
    (h : k' ≠ k) : lookupA (o ++ [(k, v)]) k' = lookupA o k' := by
  induction o with
  | nil =>
    simp only [List.nil_append, lookupA]
    rw [if_neg (Ne.symm h)]
  | cons p rest ih =>
    obtain ⟨pk, pv⟩ := p
    by_cases hp : pk = k'
    · simp [lookupA, hp]
    · simp [lookupA, hp, ih]

theorem lookupA_setdefaultA_self {α : Type} (o : List (String × α)) (k : String) (v : α) :
    lookupA (setdefaultA o k v) k = some ((lookupA o k).getD v) := by
  unfold setdefaultA
  cases h : lookupA o k with
  | some w => simp [h]
  | none => simp [lookupA_append_none o k v h]

theorem lookupA_setdefaultA_ne {α : Type} (o : List (String × α)) (k k' : String) (v : α)
    (h : k' ≠ k) : lookupA (setdefaultA o k v) k' = lookupA o k' := by
  unfold setdefaultA
  cases hl : lookupA o k with
  | some w => rfl
  | none => exact lookupA_append_ne o k k' v h

/-! ## Repository state and operations

`St` abstracts the `ideas/` directory: `folders` is the list of existing
idea directories (in creation order), `docs` maps a folder name to the
parsed contents of its `idea.json` (the `json.dump`/`json.load` pair is a
bijection on these objects, so the state stores the object itself), and
`pdfs` is the set of folders whose `idea.pdf` artifact exists.
`render_pdf` (lines 121-188) reads `idea.json` and writes `idea.pdf`; it
never modifies the JSON document, so its effect on the state is only the
`pdfs` component.  The current date `datetime.now().strftime('%Y-%m-%d')`
is passed in as the `today` argument. -/

structure St where
  folders : List String
  docs : List (String × Obj)
  pdfs : List String
deriving Repr

def emptySt : St := { folders := [], docs := [], pdfs := [] }

/-- Effect of `render_pdf folder` on the artifact set: if the folder has an
`idea.json`, (over)write `idea.pdf`. -/
def renderPdf (st : St) (folder : String) : St :=
  match lookupA st.docs folder with
  | some _ => if folder ∈ st.pdfs then st else { st with pdfs := st.pdfs ++ [folder] }
  | none => st

inductive SaveOut where
  | badRequest
  | ok (folder : String) (st : St)
deriving Repr

/-- `save_idea` (`app.py` lines 190-209).  `none` models an unhandled
exception (a truthy non-string `title`, on which `clean` raises). -/
def save_idea (st : St) (today : String) (data : Obj) : Option SaveOut :=
  match lookupA data "title" with
  | none => some .badRequest
  | some tv =>
    if jTruthy tv then
      match tv with
      | .str t =>
        let folder := unique st.folders (clean t)
        let d1 := setA data "dateCreated"
          (match lookupA data "dateCreated" with
           | some dv => if jTruthy dv then dv else .str today
           | none => .str today)
        let d2 := setdefaultA d1 "updates" (.arr [])
        let st1 : St := { folders := st.folders ++ [folder],
                          docs := setA st.docs folder d2,
                          pdfs := st.pdfs }
        some (.ok folder (renderPdf st1 folder))
      | _ => none
    else some .badRequest

/-- `get_idea` (`app.py` lines 231-238): `none` models the 404 response. -/
def get_idea (st : St) (folder : String) : Option Obj :=
  lookupA st.docs (clean folder)

/-- `delete_idea` (`app.py` lines 240-249): `none` models the 404 response.
When `clean folder = ""`, `os.path.join(IDEAS, '')` denotes the ideas
directory itself, which exists, and `shutil.rmtree` removes it with all
idea folders inside. -/
def delete_idea (st : St) (folder : String) : Option St :=
  let p := clean folder
  if p = "" then some { folders := [], docs := [], pdfs := [] }
  else if p ∈ st.folders then
    some { folders := st.folders.filter (fun n => !(n == p)),
           docs := st.docs.filter (fun e => !(e.fst == p)),
           pdfs := st.pdfs.filter (fun n => !(n == p)) }
  else none

/-- The string `data.get('ideaTitle', '')` passed to `clean` by
`add_update`; the non-string case raises inside `clean` and is handled at
the caller. -/
def titleRefStr (data : Obj) : String :=
  match lookupA data "ideaTitle" with
  | some (.str s) => s
  | _ => ""

/-- `data.get('updateText', '')` in `add_update`. -/
def txtOf (data : Obj) : JVal :=
  (lookupA data "updateText").getD (.str "")

/-- The entry appended by `add_update`: `{'date': today, 'text': text}`. -/
def updEntry (today : String) (data : Obj) : JVal :=
  .obj [("date", .str today), ("text", txtOf data)]

/-- The body of `add_update` once `clean(data.get('ideaTitle',''))` is known
not to raise: look up the document, append the entry, rewrite, re-render. -/
def add_update_body (st : St) (today : String) (data : Obj) : Option St :=
  match lookupA st.docs (clean (titleRefStr data)) with
  | none => none
  | some fields =>
    match lookupA fields "updates" with
    | some (.arr l) =>
      some (renderPdf
        { st with docs := (setA st.docs (clean (titleRefStr data))
            (setA fields "updates" (.arr (l ++ [updEntry today data])))) }
        (clean (titleRefStr data)))
    | some _ => none
    | none =>
      some (renderPdf
        { st with docs := (setA st.docs (clean (titleRefStr data))
            (fields ++ [("updates", .arr [updEntry today data])])) }
        (clean (titleRefStr data)))

/-- `add_update` (`app.py` lines 252-274).  `none` models both the 404
response (no `idea.json` at the derived path) and an unhandled exception
(non-string `ideaTitle`, or an existing non-list `updates` value, on which
`.append` raises). -/
def add_update (st : St) (today : String) (data : Obj) : Option St :=
  match lookupA data "ideaTitle" with
  | some (.str _) | none => add_update_body st today data
  | some _ => none

/-! ### Projections used to state the claims -/

/-- `create` followed by `get` on the returned folder. -/
def createThenGet (today : String) (data : Obj) : Option Obj :=
  match save_idea emptySt today data with
  | some (.ok folder st') => get_idea st' folder
  | _ => none

/-- A field of the record obtained by `create`-then-`get`. -/
def cgField (today : String) (data : Obj) (k : String) : Option JVal :=
  (createThenGet today data).bind (fun o => lookupA o k)

/-- The stored document of the idea created by `save_idea` (any start state). -/
def saveDoc (st : St) (today : String) (data : Obj) : Option Obj :=
  match save_idea st today data with
  | some (.ok folder st') => lookupA st'.docs folder
  | _ => none

/-- The `updates` list stored for `folder` (empty when absent). -/
def updatesOf (st : St) (folder : String) : List JVal :=
  match lookupA st.docs folder with
  | some fields =>
    match lookupA fields "updates" with
    | some (.arr l) => l
    | _ => []
  | none => []

/-- A field of the document stored for `folder`. -/
def fieldAt (st : St) (folder : String) (k : String) : Option JVal :=
  (lookupA st.docs folder).bind (fun fields => lookupA fields k)

/-- `k` successive `create` calls with the same title, starting from the
empty ideas store; returns the folder names in call order together with
the final state.  (A failing call leaves the state unchanged and returns
no folder; under the hypotheses of the theorems below every call
succeeds.) -/
def runCreates (t today : String) : Nat → List String × St
  | 0 => ([], emptySt)
  | k + 1 =>
    let (fs, st) := runCreates t today k
    match save_idea st today [("title", .str t)] with
    | some (.ok folder st') => (fs ++ [folder], st')
    | _ => (fs, st)

/-! ## Signup (`app.py` lines 288-314)

Only the POST branch is modelled.  The username and password fields may be
absent (`None`); `data.get('username') or ''` maps an absent or empty
value to `''`.  The handler consults the credential store through
`load_users`/`save_users`; here the loaded mapping is a parameter (their
file round-trip is verified separately below).
`generate_password_hash` is salted and `Fernet.encrypt` is randomized;
their outputs are never inspected by any claim, so they are modelled as
plain taggings of the password. -/

structure UserRec where
  password_hash : String
  password_encrypted : String
  created_at : String
deriving DecidableEq, Repr

abbrev Users := List (String × UserRec)

def werkzeugHash (password : String) : String := "pbkdf2:" ++ password

def masterEncrypt (password : String) : String := "fernet:" ++ password

inductive SignupOut where
  | badRequest
  | conflict
  | ok (users : Users)
deriving DecidableEq, Repr

def signup (users : Users) (now : String) (username password : Option String) :
    SignupOut :=
  let un := pyStrip (username.getD "")
  let pw := password.getD ""
  if un = "" ∨ pw = "" then .badRequest
  else if (lookupA users un).isSome then .conflict
  else .ok (users ++ [(un, { password_hash := werkzeugHash pw,
                             password_encrypted := masterEncrypt pw,
                             created_at := now })])

/-! ## Path resolution (for the traversal claim)

A filesystem path is a stack of components.  `resolvePiece` applies one
separator-free piece: `""` and `"."` stay in place, `".."` pops, anything
else descends.  `splitSeps` cuts an untrusted component at `/` and `\`
(the separators recognized on the supported platforms), so resolving an
argument means resolving each of its pieces in order. -/

def resolvePiece (stack : List String) (piece : List Char) : List String :=
  if piece = [] ∨ piece = ['.'] then stack
  else if piece = ['.', '.'] then stack.dropLast
  else stack ++ [⟨piece⟩]

def isSep (c : Char) : Bool := c = '/' || c = '\\'

def splitSeps : List Char → List (List Char)
  | [] => [[]]
  | c :: cs =>
    if isSep c then [] :: splitSeps cs
    else
      match splitSeps cs with
      | [] => [[c]]
      | p :: ps => (c :: p) :: ps

/-- Resolve one path argument (an untrusted folder reference) against a
base directory. -/
def resolveArg (base : List String) (comp : String) : List String :=
  (splitSeps comp.data).foldl resolvePiece base

/-- Resolve a sequence of joined arguments. -/
def resolveArgs (base : List String) (args : List String) : List String :=
  args.foldl resolveArg base

/-! ## Spec-side definitions for the `clean` claims

`specCleanAscii` is claim C3's description of `clean` taken literally:
keep exactly `[A-Za-z0-9 _-]` (an ASCII class), then trim whitespace.
`specCleanUnicode` is the amended description: keep Unicode alphanumerics
(Python `str.isalnum`) besides space, underscore and hyphen, then trim.
Both are written with their own recursion so that agreement with `clean`
is a proved equivalence, not a definitional restatement. -/

def removeOutsideAscii : List Char → List Char
  | [] => []
  | c :: cs =>
    if c.isAlphanum || c = ' ' || c = '_' || c = '-' then c :: removeOutsideAscii cs
    else removeOutsideAscii cs

def removeOutsideUnicode : List Char → List Char
  | [] => []
  | c :: cs =>
    if pyIsAlnum c || c = ' ' || c = '_' || c = '-' then c :: removeOutsideUnicode cs
    else removeOutsideUnicode cs

def trimLeadingWs : List Char → List Char
  | [] => []
  | c :: cs => if pyIsSpace c then trimLeadingWs cs else c :: cs

def trimBothWs (l : List Char) : List Char :=
  (trimLeadingWs (trimLeadingWs l).reverse).reverse

def specCleanAscii (s : String) : String :=
  ⟨trimBothWs (removeOutsideAscii s.data)⟩

def specCleanUnicode (s : String) : String :=
  ⟨trimBothWs (removeOutsideUnicode s.data)⟩

theorem trimLeadingWs_eq_dropWhile (l : List Char) :
    trimLeadingWs l = l.dropWhile pyIsSpace := by
  induction l with
  | nil => rfl
  | cons c cs ih =>
    by_cases h : pyIsSpace c
    · simp [trimLeadingWs, h, List.dropWhile, ih]
    · simp [trimLeadingWs, h, List.dropWhile]

theorem removeOutsideUnicode_eq_filter (l : List Char) :
    removeOutsideUnicode l = l.filter keepChar := by
  induction l with
  | nil => rfl
  | cons c cs ih =>
    by_cases h : keepChar c
    · have h' : (pyIsAlnum c || c = ' ' || c = '_' || c = '-') = true := h
      simp [removeOutsideUnicode, h', List.filter, h, ih]
    · have h' : (pyIsAlnum c || c = ' ' || c = '_' || c = '-') = false := by
        simpa [keepChar] using h
      simp [removeOutsideUnicode, h', List.filter, h, ih]

theorem clean_eq_specCleanUnicode (s : String) : clean s = specCleanUnicode s := by
  unfold clean specCleanUnicode pyStrip pyStripList trimBothWs
  rw [removeOutsideUnicode_eq_filter, trimLeadingWs_eq_dropWhile,
      trimLeadingWs_eq_dropWhile]

/-! ## Credential store (`app.py` lines 74-89)

`save_users` serializes the user mapping with `json.dumps(users, indent=2)`
and encrypts it; `load_users` decrypts and parses, returning `{}` when the
file is absent or empty and raising `RuntimeError` on any decrypt/parse
failure.

The serializer below reproduces `json.dumps(users, indent=2)` character by
character for mappings of the credential schema (each value is the
three-field record written by `signup`, in insertion order).  String
escaping covers `\"`, `\\` and the short escapes `\n` `\t` `\r` `\b` `\f`
that `json.dumps` emits; the remaining control characters and non-ASCII
`\uXXXX` escapes are passed through verbatim, which leaves the
encode/decode pair inverse to each other exactly as the real pair is.
The parser is the decode path specialized to this schema: it skips
inter-token whitespace and requires the three known keys, as `json.loads`
reconstructs them from the blob this serializer wrote.

Fernet encryption is modelled as an invertible tagging: `fernetEnc`
prepends a token marker and `fernetDec` is its exact inverse, failing on
inputs without the marker.  This preserves the properties the store
relies on: tokens are never empty and decryption of an untampered token
returns the plaintext. -/

def escChar (c : Char) : List Char :=
  if c = '"' then ['\\', '"']
  else if c = '\\' then ['\\', '\\']
  else if c = '\n' then ['\\', 'n']
  else if c = '\t' then ['\\', 't']
  else if c = '\r' then ['\\', 'r']
  else if c = '\x08' then ['\\', 'b']
  else if c = '\x0c' then ['\\', 'f']
  else [c]

def escList : List Char → List Char
  | [] => []
  | c :: cs => escChar c ++ escList cs

/-- A JSON string literal: `"…"` with the body escaped. -/
def strLitE (s : String) : List Char :=
  '"' :: (escList s.data ++ ['"'])

def nl : Char := '\n'

def ind2 : List Char := [' ', ' ']

def ind4 : List Char := [' ', ' ', ' ', ' ']

/-- One `"key": "value"` line at the inner indentation level. -/
def fieldLine (key value : String) : List Char :=
  ind4 ++ strLitE key ++ [':', ' '] ++ strLitE value

/-- The serialized form of one `UserRec` (keys in the order `signup`
inserts them). -/
def dumpUser (u : UserRec) : List Char :=
  '\x7b' :: nl ::
    (fieldLine "password_hash" u.password_hash ++ [',', nl] ++
     fieldLine "password_encrypted" u.password_encrypted ++ [',', nl] ++
     fieldLine "created_at" u.created_at ++ [nl] ++ ind2 ++ ['\x7d'])

/-- One top-level `"username": {…}` entry. -/
def dumpEntry (e : String × UserRec) : List Char :=
  ind2 ++ strLitE e.fst ++ [':', ' '] ++ dumpUser e.snd

def joinComma : List (List Char) → List Char
  | [] => []
  | [x] => x
  | x :: y :: t => x ++ [',', nl] ++ joinComma (y :: t)

/-- `json.dumps(users, indent=2)`. -/
def dumpUsers (m : Users) : List Char :=
  match m with
  | [] => ['\x7b', '\x7d']
  | _ => '\x7b' :: nl :: (joinComma (m.map dumpEntry) ++ [nl, '\x7d'])

/-! ### The parse path -/

def isJsonWs (c : Char) : Bool :=
  c = ' ' || c = '\n' || c = '\t' || c = '\r'

def skipWs (l : List Char) : List Char :=
  l.dropWhile isJsonWs

def unesc (e : Char) : Option Char :=
  if e = '"' then some '"'
  else if e = '\\' then some '\\'
  else if e = 'n' then some '\n'
  else if e = 't' then some '\t'
  else if e = 'r' then some '\r'
  else if e = 'b' then some '\x08'
  else if e = 'f' then some '\x0c'
  else none

/-- Parse a string body after the opening quote; returns the unescaped
content and the remainder after the closing quote. -/
def parseStrBody : List Char → Option (List Char × List Char)
  | [] => none
  | c :: rest =>
    if c = '"' then some ([], rest)
    else if c = '\\' then
      match rest with
      | [] => none
      | e :: rest2 =>
        match unesc e with
        | none => none
        | some d =>
          match parseStrBody rest2 with
          | none => none
          | some (s, r) => some (d :: s, r)
    else
      match parseStrBody rest with
      | none => none
      | some (s, r) => some (c :: s, r)

/-- Parse a string literal, skipping leading whitespace. -/
def parseStrLit (l : List Char) : Option (String × List Char) :=
  match skipWs l with
  | '"' :: r =>
    match parseStrBody r with
    | some (cs, rest) => some (⟨cs⟩, rest)
    | none => none
  | _ => none

/-- Parse `"key": "value"` where `key` must be the expected schema key. -/
def parseKV (key : String) (l : List Char) : Option (String × List Char) :=
  match parseStrLit l with
  | some (k, r) =>
    if k = key then
      match skipWs r with
      | ':' :: r2 => parseStrLit r2
      | _ => none
    else none
  | none => none

/-- Parse one serialized `UserRec` object. -/
def parseUser (l : List Char) : Option (UserRec × List Char) :=
  match skipWs l with
  | '\x7b' :: r =>
    match parseKV "password_hash" r with
    | some (v1, r1) =>
      match skipWs r1 with
      | ',' :: r1' =>
        match parseKV "password_encrypted" r1' with
        | some (v2, r2) =>
          match skipWs r2 with
          | ',' :: r2' =>
            match parseKV "created_at" r2' with
            | some (v3, r3) =>
              match skipWs r3 with
              | '\x7d' :: r4 =>
                some ({ password_hash := v1, password_encrypted := v2,
                        created_at := v3 }, r4)
              | _ => none
            | none => none
          | _ => none
        | none => none
      | _ => none
    | none => none
  | _ => none

/-- Parse the entries of a non-empty top-level object, up to and including
the closing brace.  `fuel` bounds the number of entries; each entry
consumes at least one character, so the input length suffices. -/
def parseEntries : Nat → List Char → Option (Users × List Char)
  | 0, _ => none
  | fuel + 1, l =>
    match parseStrLit l with
    | some (k, r) =>
      match skipWs r with
      | ':' :: r2 =>
        match parseUser r2 with
        | some (u, r3) =>
          let r3' := skipWs r3
          if r3'.head? = some ',' then
            match parseEntries fuel r3'.tail with
            | some (m, rest) => some ((k, u) :: m, rest)
            | none => none
          else if r3'.head? = some '\x7d' then some ([(k, u)], r3'.tail)
          else none
        | none => none
      | _ => none
    | none => none

/-- `json.loads` specialized to the credential blob schema; requires the
whole input to be consumed (up to trailing whitespace). -/
def parseUsers (l : List Char) : Option Users :=
  let l' := skipWs l
  if l'.head? = some '\x7b' then
    let r := l'.tail
    if (skipWs r).head? = some '\x7d' then
      if (skipWs (skipWs r).tail).isEmpty then some [] else none
    else
      match parseEntries (r.length + 1) r with
      | some (m, rest) => if (skipWs rest).isEmpty then some m else none
      | none => none
  else none

def fernetTag : Char := 'g'

def fernetEnc (plain : List Char) : List Char := fernetTag :: plain

def fernetDec (token : List Char) : Option (List Char) :=
  match token with
  | c :: rest => if c = fernetTag then some rest else none
  | [] => none

/-- `save_users` (`app.py` lines 85-89): the written content of `users.enc`. -/
def save_users (users : Users) : Option (List Char) :=
  some (fernetEnc (dumpUsers users))

/-- `load_users` (`app.py` lines 74-83) reading the given file content
(`none` = file absent). -/
def load_users (file : Option (List Char)) : Except String Users :=
  match file with
  | none => .ok []
  | some bytes =>
    if bytes.length = 0 then .ok []
    else
      match fernetDec bytes with
      | none => .error "Failed to decrypt users.enc"
      | some raw =>
        match parseUsers raw with
        | some m => .ok m
        | none => .error "Failed to decrypt users.enc"

/-! ### Round-trip of the credential store -/

theorem string_mk_data (s : String) : (⟨s.data⟩ : String) = s := by
  cases s; rfl

theorem skipWs_cons_of_ws (c : Char) (l : List Char) (h : isJsonWs c = true) :
    skipWs (c :: l) = skipWs l := by
  simp [skipWs, List.dropWhile, h]

theorem skipWs_cons_of_not_ws (c : Char) (l : List Char) (h : isJsonWs c = false) :
    skipWs (c :: l) = c :: l := by
  simp [skipWs, List.dropWhile, h]

theorem skipWs_space (l : List Char) : skipWs (' ' :: l) = skipWs l :=
  skipWs_cons_of_ws ' ' l (by decide)

theorem skipWs_nl (l : List Char) : skipWs (nl :: l) = skipWs l :=
  skipWs_cons_of_ws nl l (by decide)

theorem skipWs_colon (l : List Char) : skipWs (':' :: l) = ':' :: l :=
  skipWs_cons_of_not_ws ':' l (by decide)

theorem skipWs_comma (l : List Char) : skipWs (',' :: l) = ',' :: l :=
  skipWs_cons_of_not_ws ',' l (by decide)

theorem skipWs_quote (l : List Char) : skipWs ('"' :: l) = '"' :: l :=
  skipWs_cons_of_not_ws '"' l (by decide)

theorem skipWs_lbrace (l : List Char) : skipWs ('\x7b' :: l) = '\x7b' :: l :=
  skipWs_cons_of_not_ws '\x7b' l (by decide)

theorem skipWs_rbrace (l : List Char) : skipWs ('\x7d' :: l) = '\x7d' :: l :=
  skipWs_cons_of_not_ws '\x7d' l (by decide)

theorem parseStrBody_escList (cs rest : List Char) :
    parseStrBody (escList cs ++ '"' :: rest) = some (cs, rest) := by
  induction cs with
  | nil =>
    simp only [escList, List.nil_append]
    unfold parseStrBody
    simp
  | cons c cs ih =>
    simp only [escList, List.append_assoc]
    by_cases h1 : c = '"'
    · subst h1; simp [escChar, parseStrBody, unesc, ih]
    · by_cases h2 : c = '\\'
      · subst h2; simp [escChar, parseStrBody, unesc, ih]
      · by_cases h3 : c = '\n'
        · subst h3; simp [escChar, parseStrBody, unesc, ih]
        · by_cases h4 : c = '\t'
          · subst h4; simp [escChar, parseStrBody, unesc, ih]
          · by_cases h5 : c = '\r'
            · subst h5; simp [escChar, parseStrBody, unesc, ih]
            · by_cases h6 : c = '\x08'
              · subst h6; simp [escChar, parseStrBody, unesc, ih]
              · by_cases h7 : c = '\x0c'
                · subst h7; simp [escChar, parseStrBody, unesc, ih]
                · simp only [escChar, h1, h2, h3, h4, h5, h6, h7, if_false, List.cons_append, List.nil_append]
                  unfold parseStrBody
                  simp [h1, h2, ih]

theorem parseStrLit_strLitE (s : String) (rest : List Char) :
    parseStrLit (strLitE s ++ rest) = some (s, rest) := by
  unfold strLitE parseStrLit
  rw [List.cons_append, skipWs_cons_of_not_ws '"' _ (by decide)]
  simp only [List.append_assoc, List.cons_append, List.nil_append]
  rw [parseStrBody_escList]

theorem parseStrLit_space (l : List Char) :
    parseStrLit (' ' :: l) = parseStrLit l := by
  unfold parseStrLit
  rw [skipWs_space]

theorem parseStrLit_nl (l : List Char) :
    parseStrLit (nl :: l) = parseStrLit l := by
  unfold parseStrLit
  rw [skipWs_nl]

theorem parseKV_fieldLine (key value : String) (rest : List Char) :
    parseKV key (fieldLine key value ++ rest) = some (value, rest) := by
  unfold fieldLine ind4 parseKV
  simp only [List.append_assoc, List.cons_append, List.nil_append]
  rw [parseStrLit_space, parseStrLit_space, parseStrLit_space, parseStrLit_space]
  rw [parseStrLit_strLitE]
  simp [skipWs_colon, parseStrLit_space, parseStrLit_strLitE]

theorem parseKV_nl (key : String) (l : List Char) :
    parseKV key (nl :: l) = parseKV key l := by
  unfold parseKV
  rw [parseStrLit_nl]

theorem parseUser_dumpUser (u : UserRec) (rest : List Char) :
    parseUser (dumpUser u ++ rest) = some (u, rest) := by
  unfold dumpUser parseUser ind2
  simp only [List.append_assoc, List.cons_append, List.nil_append]
  simp [skipWs_lbrace, skipWs_comma, skipWs_nl, skipWs_space, skipWs_rbrace,
    parseKV_nl, parseKV_fieldLine]

theorem parseUser_space (l : List Char) :
    parseUser (' ' :: l) = parseUser l := by
  unfold parseUser
  rw [skipWs_space]

theorem parseEntries_nl (fuel : Nat) (l : List Char) :
    parseEntries fuel (nl :: l) = parseEntries fuel l := by
  cases fuel with
  | zero => rfl
  | succ fuel =>
    unfold parseEntries
    rw [parseStrLit_nl]

theorem parseEntries_entry (fuel : Nat) (k : String) (u : UserRec)
    (tail : List Char) :
    parseEntries (fuel + 1) (dumpEntry (k, u) ++ tail) =
      (if (skipWs tail).head? = some ',' then
         match parseEntries fuel (skipWs tail).tail with
         | some (m, rest) => some ((k, u) :: m, rest)
         | none => none
       else if (skipWs tail).head? = some '\x7d' then some ([(k, u)], (skipWs tail).tail)
       else none) := by
  conv_lhs => unfold parseEntries
  unfold dumpEntry ind2
  simp only [List.append_assoc, List.cons_append, List.nil_append]
  simp [parseStrLit_space, parseStrLit_strLitE, skipWs_colon, parseUser_space,
    parseUser_dumpUser]

theorem parseEntries_joinComma (es : Users) :
    ∀ (e : String × UserRec) (fuel : Nat) (rest : List Char), es.length < fuel →
    parseEntries fuel (joinComma ((e :: es).map dumpEntry) ++ (nl :: '\x7d' :: rest)) =
      some (e :: es, rest) := by
  induction es with
  | nil =>
    intro e fuel rest hfuel
    obtain ⟨k, u⟩ := e
    cases fuel with
    | zero => omega
    | succ fuel =>
      simp only [List.map, joinComma]
      rw [parseEntries_entry]
      rw [skipWs_nl, skipWs_rbrace]
      simp
  | cons e2 es ih =>
    intro e fuel rest hfuel
    obtain ⟨k, u⟩ := e
    cases fuel with
    | zero => omega
    | succ fuel =>
      simp only [List.map, joinComma, List.append_assoc, List.cons_append,
        List.nil_append]
      rw [parseEntries_entry]
      rw [skipWs_comma]
      have ihe := ih e2 fuel rest (by simpa using Nat.lt_of_succ_lt_succ hfuel)
      simp only [List.map] at ihe
      simp [parseEntries_nl, ihe]

theorem dumpEntry_length_pos (e : String × UserRec) : 1 ≤ (dumpEntry e).length := by
  obtain ⟨k, u⟩ := e
  simp [dumpEntry, ind2]

theorem joinComma_map_length (e : String × UserRec) (es : Users) :
    (e :: es).length ≤ (joinComma ((e :: es).map dumpEntry)).length := by
  induction es generalizing e with
  | nil => simpa using dumpEntry_length_pos e
  | cons e2 es ih =>
    have h2 := ih e2
    have h1 := dumpEntry_length_pos e
    simp only [List.map, joinComma] at *
    simp only [List.length_append, List.length_cons] at *
    omega

theorem skipWs_entry_head (e : String × UserRec) (tail : List Char) :
    skipWs (dumpEntry e ++ tail) =
      '"' :: (escList e.fst.data ++ ['"'] ++ (':' :: ' ' :: dumpUser e.snd ++ tail)) := by
  obtain ⟨k, u⟩ := e
  unfold dumpEntry ind2 strLitE
  simp only [List.append_assoc, List.cons_append, List.nil_append]
  rw [skipWs_space, skipWs_space, skipWs_quote]

theorem parseUsers_dumpUsers (m : Users) : parseUsers (dumpUsers m) = some m := by
  cases m with
  | nil => rfl
  | cons e es =>
    unfold dumpUsers parseUsers
    rw [skipWs_lbrace]
    simp only [List.head?_cons, List.tail_cons, if_true]
    have hshape : ∃ z, skipWs (nl :: (joinComma ((e :: es).map dumpEntry) ++ [nl, '\x7d'])) = '"' :: z := by
      rw [skipWs_nl]
      cases es with
      | nil =>
        simp only [List.map, joinComma]
        rw [skipWs_entry_head]
        exact ⟨_, rfl⟩
      | cons e2 es2 =>
        simp only [List.map, joinComma, List.append_assoc, List.cons_append]
        rw [skipWs_entry_head]
        exact ⟨_, rfl⟩
    obtain ⟨z, hz⟩ := hshape
    simp only [hz, List.head?_cons]
    rw [if_neg (by simp)]
    have hlen : es.length <
        (nl :: (joinComma ((e :: es).map dumpEntry) ++ [nl, '\x7d'])).length + 1 := by
      have := joinComma_map_length e es
      simp only [List.length_cons, List.length_append] at *
      omega
    have hparse := parseEntries_joinComma es e
      ((nl :: (joinComma ((e :: es).map dumpEntry) ++ [nl, '\x7d'])).length + 1) [] hlen
    simp only [parseEntries_nl, hparse]
    simp [skipWs]

/-- Round-trip helper: `load_users` after `save_users` recovers the mapping. -/
theorem load_save_users (m : Users) : load_users (save_users m) = .ok m := by
  unfold load_users save_users fernetEnc
  simp only [List.length_cons]
  rw [if_neg (by omega)]
  have hdec : fernetDec (fernetTag :: dumpUsers m) = some (dumpUsers m) := by
    simp [fernetDec]
  rw [hdec]
  simp [parseUsers_dumpUsers]

/-! ## Characterizations of the repository operations -/

/-- The stored `dateCreated`:
`data['dateCreated'] = data.get('dateCreated') or datetime.now().strftime(…)`. -/
def dcVal (data : Obj) (today : String) : JVal :=
  match lookupA data "dateCreated" with
  | some dv => if jTruthy dv then dv else .str today
  | none => .str today

/-- The document written by `save_idea`. -/
def savedObj (data : Obj) (today : String) : Obj :=
  setdefaultA (setA data "dateCreated" (dcVal data today)) "updates" (.arr [])

theorem renderPdf_docs (st : St) (f : String) : (renderPdf st f).docs = st.docs := by
  unfold renderPdf
  split
  · split <;> rfl
  · rfl

theorem renderPdf_folders (st : St) (f : String) :
    (renderPdf st f).folders = st.folders := by
  unfold renderPdf
  split
  · split <;> rfl
  · rfl

theorem save_idea_ok (st : St) (today : String) (data : Obj) (t : String)
    (ht : lookupA data "title" = some (.str t)) (htt : t ≠ "") :
    save_idea st today data =
      some (.ok (unique st.folders (clean t))
        (renderPdf { folders := st.folders ++ [unique st.folders (clean t)],
                     docs := setA st.docs (unique st.folders (clean t))
                       (savedObj data today),
                     pdfs := st.pdfs } (unique st.folders (clean t)))) := by
  have hj : jTruthy (.str t) = true := by simp [jTruthy, htt]
  unfold save_idea
  rw [ht]
  dsimp only []
  rw [hj]
  rfl

theorem saveDoc_eq (st : St) (today : String) (data : Obj) (t : String)
    (ht : lookupA data "title" = some (.str t)) (htt : t ≠ "") :
    saveDoc st today data = some (savedObj data today) := by
  unfold saveDoc
  rw [save_idea_ok st today data t ht htt]
  dsimp only []
  rw [renderPdf_docs]
  exact lookupA_setA_self _ _ _

theorem lookupA_savedObj_other (data : Obj) (today : String) (k : String)
    (h1 : k ≠ "dateCreated") (h2 : k ≠ "updates") :
    lookupA (savedObj data today) k = lookupA data k := by
  unfold savedObj
  rw [lookupA_setdefaultA_ne _ _ _ _ h2, lookupA_setA_ne _ _ _ _ h1]

theorem lookupA_savedObj_dateCreated (data : Obj) (today : String) :
    lookupA (savedObj data today) "dateCreated" = some (dcVal data today) := by
  unfold savedObj
  rw [lookupA_setdefaultA_ne _ _ _ _ (by decide), lookupA_setA_self]

theorem lookupA_savedObj_updates (data : Obj) (today : String) :
    lookupA (savedObj data today) "updates" =
      some ((lookupA data "updates").getD (.arr [])) := by
  unfold savedObj
  rw [lookupA_setdefaultA_self, lookupA_setA_ne _ _ _ _ (by decide)]

theorem existsName_nil (name : String) (h : name ≠ "") :
    existsName [] name = false := by
  simp [existsName, h]

theorem unique_nil (name : String) (h : name ≠ "") : unique [] name = name := by
  have := unique_spec [] name 1 le_rfl (by simp) (existsName_nil name h)
    (fun j hj1 hj2 => by omega)
  simpa [cand_one] using this

/-- `create` followed by `get` on the returned folder, from the empty store. -/
theorem createThenGet_eq (today : String) (data : Obj) (t : String)
    (ht : lookupA data "title" = some (.str t)) (hclean : clean t ≠ "") :
    createThenGet today data = some (savedObj data today) := by
  have htt : t ≠ "" := clean_ne_empty_of t hclean
  have hu : unique emptySt.folders (clean t) = clean t := unique_nil (clean t) hclean
  unfold createThenGet
  rw [save_idea_ok emptySt today data t ht htt]
  dsimp only []
  unfold get_idea
  rw [renderPdf_docs, hu, clean_clean]
  exact lookupA_setA_self _ _ _

/-! ### The effect of `add_update` on the stored document -/

theorem add_update_body_effect (st : St) (today : String) (data : Obj) (st' : St)
    (h : add_update_body st today data = some st') :
    updatesOf st' (clean (titleRefStr data)) =
      updatesOf st (clean (titleRefStr data)) ++ [updEntry today data] ∧
    ∀ k, k ≠ "updates" →
      fieldAt st' (clean (titleRefStr data)) k =
        fieldAt st (clean (titleRefStr data)) k := by
  unfold add_update_body at h
  rcases hdoc : lookupA st.docs (clean (titleRefStr data)) with _ | fields
  · rw [hdoc] at h
    exact absurd h (by simp)
  · rw [hdoc] at h
    dsimp only [] at h
    rcases hupd : lookupA fields "updates" with _ | uv
    · -- `updates` absent: `setdefault` appends the key, then one entry
      rw [hupd] at h
      injection h with h2
      subst h2
      constructor
      · simp only [updatesOf, renderPdf_docs, lookupA_setA_self, hdoc,
          lookupA_append_none fields "updates" _ hupd, hupd, List.nil_append]
      · intro k hk
        simp only [fieldAt, renderPdf_docs, lookupA_setA_self, hdoc,
          Option.bind_some]
        exact lookupA_append_ne fields "updates" k _ hk
    · -- `updates` present: must be a list, which gets one entry appended
      cases uv with
      | arr l =>
        rw [hupd] at h
        injection h with h2
        subst h2
        constructor
        · simp only [updatesOf, renderPdf_docs, lookupA_setA_self, hdoc, hupd]
        · intro k hk
          simp only [fieldAt, renderPdf_docs, lookupA_setA_self, hdoc,
            Option.bind_some]
          exact lookupA_setA_ne fields "updates" k _ hk
      | str s => rw [hupd] at h; exact absurd h (by simp)
      | num n => rw [hupd] at h; exact absurd h (by simp)
      | bool b => rw [hupd] at h; exact absurd h (by simp)
      | null => rw [hupd] at h; exact absurd h (by simp)
      | obj f => rw [hupd] at h; exact absurd h (by simp)

theorem add_update_effect (st : St) (today : String) (data : Obj) (st' : St)
    (h : add_update st today data = some st') :
    updatesOf st' (clean (titleRefStr data)) =
      updatesOf st (clean (titleRefStr data)) ++ [updEntry today data] ∧
    ∀ k, k ≠ "updates" →
      fieldAt st' (clean (titleRefStr data)) k =
        fieldAt st (clean (titleRefStr data)) k := by
  unfold add_update at h
  rcases hml : lookupA data "ideaTitle" with _ | v
  · rw [hml] at h
    exact add_update_body_effect st today data st' h
  · rw [hml] at h
    cases v with
    | str s => exact add_update_body_effect st today data st' h
    | num n => exact absurd h (by simp)
    | bool b => exact absurd h (by simp)
    | null => exact absurd h (by simp)
    | arr l => exact absurd h (by simp)
    | obj f => exact absurd h (by simp)

/-! ### Folder names generated by repeated creation of the same title -/

theorem cand_one_ne_empty (ct : String) (h : ct ≠ "") (i : Nat) (hi : 1 ≤ i) :
    cand ct i ≠ "" := by
  rcases Nat.lt_or_ge i 2 with h2 | h2
  · have : i = 1 := by omega
    subst this
    simpa [cand_one] using h
  · exact cand_ne_empty ct i h2

theorem unique_on_cands (ct : String) (h : ct ≠ "") (k : Nat) :
    unique ((List.range k).map (fun j => cand ct (j + 1))) ct = cand ct (k + 1) := by
  have hres := unique_spec ((List.range k).map (fun j => cand ct (j + 1))) ct (k + 1)
    (by omega)
    (by simp)
    (by
      have hne : cand ct (k + 1) ≠ "" := cand_one_ne_empty ct h (k + 1) (by omega)
      have hmem : cand ct (k + 1) ∉ (List.range k).map (fun j => cand ct (j + 1)) := by
        intro hm
        simp only [List.mem_map, List.mem_range] at hm
        obtain ⟨j, hj, he⟩ := hm
        have := cand_inj ct (j + 1) (k + 1) (by omega) (by omega) he
        omega
      simp [existsName, hne, hmem])
    (by
      intro j hj1 hj2
      have hmem : cand ct j ∈ (List.range k).map (fun j => cand ct (j + 1)) := by
        simp only [List.mem_map, List.mem_range]
        exact ⟨j - 1, by omega, by rw [show j - 1 + 1 = j by omega]⟩
      simp [existsName, hmem])
  rw [hres]

theorem title_lookup (t : String) :
    lookupA [("title", JVal.str t)] "title" = some (JVal.str t) := rfl

theorem runCreates_spec (t today : String) (h : clean t ≠ "") : ∀ k,
    (runCreates t today k).fst =
      (List.range k).map (fun j => cand (clean t) (j + 1)) ∧
    (runCreates t today k).snd.folders =
      (List.range k).map (fun j => cand (clean t) (j + 1)) := by
  have htt : t ≠ "" := clean_ne_empty_of t h
  intro k
  induction k with
  | zero => exact ⟨rfl, rfl⟩
  | succ k ih =>
    obtain ⟨ih1, ih2⟩ := ih
    rcases hrc : runCreates t today k with ⟨fs, st⟩
    rw [hrc] at ih1 ih2
    dsimp only [] at ih1 ih2
    have hu : unique st.folders (clean t) = cand (clean t) (k + 1) := by
      rw [ih2]
      exact unique_on_cands (clean t) h k
    have hstep : runCreates t today (k + 1) =
        (fs ++ [cand (clean t) (k + 1)],
         renderPdf { folders := st.folders ++ [cand (clean t) (k + 1)],
                     docs := setA st.docs (cand (clean t) (k + 1))
                       (savedObj [("title", JVal.str t)] today),
                     pdfs := st.pdfs } (cand (clean t) (k + 1))) := by
      show (match runCreates t today k with
        | (fs, st) =>
          match save_idea st today [("title", JVal.str t)] with
          | some (.ok folder st') => (fs ++ [folder], st')
          | _ => (fs, st)) = _
      rw [hrc]
      dsimp only []
      rw [save_idea_ok st today [("title", JVal.str t)] t (title_lookup t) htt]
      rw [hu]
    rw [hstep]
    constructor
    · dsimp only []
      rw [ih1, List.range_succ]
      simp
    · dsimp only []
      rw [renderPdf_folders]
      dsimp only []
      rw [ih2, List.range_succ]
      simp

theorem cands_pairwise (ct : String) (k : Nat) :
    List.Pairwise (fun a b => a ≠ b)
      ((List.range k).map (fun j => cand ct (j + 1))) := by
  rw [List.pairwise_map]
  have hlt : List.Pairwise (· < ·) (List.range k) := List.pairwise_lt_range k
  refine hlt.imp ?_
  intro a b hab he
  have := cand_inj ct (a + 1) (b + 1) (by omega) (by omega) he
  omega

/-! ### Sanitized folder keys are traversal-free -/

theorem keepChar_safe (c : Char) (h : keepChar c = true) :
    isSep c = false ∧ c ≠ '.' := by
  have h47 : c ≠ '/' := by intro he; subst he; exact absurd h (by decide)
  have h92 : c ≠ '\\' := by intro he; subst he; exact absurd h (by decide)
  have h46 : c ≠ '.' := by intro he; subst he; exact absurd h (by decide)
  refine ⟨?_, h46⟩
  unfold isSep
  simp [h47, h92]

theorem clean_no_sep_dot (s : String) :
    '/' ∉ (clean s).data ∧ '\\' ∉ (clean s).data ∧ '.' ∉ (clean s).data := by
  refine ⟨?_, ?_, ?_⟩ <;> intro hm
  · exact absurd (mem_clean_keepChar s _ hm) (by decide)
  · exact absurd (mem_clean_keepChar s _ hm) (by decide)
  · exact absurd (mem_clean_keepChar s _ hm) (by decide)

theorem splitSeps_no_sep (l : List Char) (h : ∀ c ∈ l, isSep c = false) :
    splitSeps l = [l] := by
  induction l with
  | nil => rfl
  | cons c cs ih =>
    have hc : isSep c = false := h c (List.mem_cons_self c cs)
    have hcs := fun x hx => h x (List.mem_cons_of_mem c hx)
    unfold splitSeps
    rw [hc]
    simp [ih hcs]

theorem resolveArg_clean (base : List String) (s : String) :
    ∃ rest, resolveArg base (clean s) = base ++ rest := by
  have hns := clean_no_sep_dot s
  have hsplit : splitSeps (clean s).data = [(clean s).data] :=
    splitSeps_no_sep _ (fun c hc => (keepChar_safe c (mem_clean_keepChar s c hc)).1)
  unfold resolveArg
  rw [hsplit]
  by_cases he : (clean s).data = []
  · refine ⟨[], ?_⟩
    simp only [List.foldl_cons, List.foldl_nil]
    unfold resolvePiece
    rw [if_pos (Or.inl he)]
    simp
  · have hdot : (clean s).data ≠ ['.'] := by
      intro hd; apply hns.2.2; rw [hd]; exact List.mem_singleton.mpr rfl
    have hdd : (clean s).data ≠ ['.', '.'] := by
      intro hd; apply hns.2.2; rw [hd]; exact List.mem_cons_self _ _
    refine ⟨[⟨(clean s).data⟩], ?_⟩
    simp only [List.foldl_cons, List.foldl_nil]
    unfold resolvePiece
    rw [if_neg (not_or.mpr ⟨he, hdot⟩), if_neg hdd]

theorem resolveArg_ideaJson (x : List String) :
    resolveArg x "idea.json" = x ++ ["idea.json"] := rfl

theorem resolveArg_ideaPdf (x : List String) :
    resolveArg x "idea.pdf" = x ++ ["idea.pdf"] := rfl

/-! ## Example inputs used by witnesses and counterexamples -/

def exPayloadC1 : Obj :=
  [("title", JVal.str "Rocket"), ("summary", JVal.str "s"),
   ("generatedAt", JVal.str "G")]

def exStC2 : St :=
  { folders := ["x"],
    docs := [("x", [("title", JVal.str "x"), ("generatedAt", JVal.str "g"),
                    ("updates", JVal.arr [])])],
    pdfs := [] }

def exPayC2 : Obj := [("ideaTitle", JVal.str "x"), ("updateText", JVal.str "note")]

/-- The state after `add_update exStC2 "2024-05-05" exPayC2`. -/
def exStC2' : St :=
  { folders := ["x"],
    docs := [("x", [("title", JVal.str "x"), ("generatedAt", JVal.str "g"),
                    ("updates", JVal.arr [JVal.obj [("date", JVal.str "2024-05-05"),
                      ("text", JVal.str "note")]])])],
    pdfs := ["x"] }

def exStC8 : St :=
  { folders := ["y"],
    docs := [("y", [("updates", JVal.arr [JVal.str "old"])])],
    pdfs := [] }

def exPayC8 : Obj := [("ideaTitle", JVal.str "y"), ("updateText", JVal.str "w")]

/-- The state after `add_update exStC8 "2024-06-06" exPayC8`. -/
def exStC8' : St :=
  { folders := ["y"],
    docs := [("y", [("updates", JVal.arr [JVal.str "old",
      JVal.obj [("date", JVal.str "2024-06-06"), ("text", JVal.str "w")]])])],
    pdfs := ["y"] }

def exUserC6 : UserRec :=
  { password_hash := "pbkdf2:h", password_encrypted := "fernet:e",
    created_at := "2024-03-03T00:00:00" }

/-! ## The claims -/

/-- Claim C1 (counterexample): the claim states that `create` followed by
`get` on the returned folder yields the input payload with `updates` reset
to the empty sequence regardless of what the caller supplied.  On the
payload `{title: "T", updates: ["u"]}` the stored and returned record
keeps the caller-supplied `updates` list (`setdefault` only fills an
absent key), so the claimed reset does not happen. -/
theorem claim_C1_counterexample :
    cgField "2024-01-02"
        [("title", JVal.str "T"), ("updates", JVal.arr [JVal.str "u"])] "updates"
      = some (JVal.arr [JVal.str "u"]) ∧
    some (JVal.arr [JVal.str "u"]) ≠ some (JVal.arr ([] : List JVal)) := by
  constructor
  · rfl
  · intro h
    simp only [Option.some.injEq, JVal.arr.injEq] at h
    exact List.cons_ne_nil _ _ h

/-- Claim C1 (amended): for every payload whose `title` is a non-empty
string with a non-empty sanitized form, `create` from the empty store
followed by `get` on the returned folder succeeds and yields a record that
equals the input payload except that `dateCreated` is defaulted to today
when absent or falsy and `updates` is defaulted to `[]` only when absent;
in particular `generatedAt` (like every other field) is stored exactly as
supplied and is not server-assigned. -/
theorem claim_C1 (today : String) (data : Obj) (t : String)
    (ht : lookupA data "title" = some (.str t)) (hclean : clean t ≠ "") :
    (createThenGet today data).isSome = true ∧
    (∀ k, k ≠ "dateCreated" → k ≠ "updates" →
      cgField today data k = lookupA data k) ∧
    cgField today data "dateCreated" = some (dcVal data today) ∧
    cgField today data "updates" = some ((lookupA data "updates").getD (.arr [])) := by
  have hc := createThenGet_eq today data t ht hclean
  refine ⟨by rw [hc]; rfl, ?_, ?_, ?_⟩
  · intro k h1 h2
    unfold cgField
    rw [hc]
    show lookupA (savedObj data today) k = _
    exact lookupA_savedObj_other data today k h1 h2
  · unfold cgField
    rw [hc]
    show lookupA (savedObj data today) "dateCreated" = _
    exact lookupA_savedObj_dateCreated data today
  · unfold cgField
    rw [hc]
    show lookupA (savedObj data today) "updates" = _
    exact lookupA_savedObj_updates data today

/-- Witness for claim C1 at the concrete payload
`{title: "Rocket", summary: "s", generatedAt: "G"}`. -/
theorem claim_C1_witness :
    cgField "2024-01-02" exPayloadC1 "generatedAt" = lookupA exPayloadC1 "generatedAt" ∧
    cgField "2024-01-02" exPayloadC1 "dateCreated" =
      some (dcVal exPayloadC1 "2024-01-02") ∧
    cgField "2024-01-02" exPayloadC1 "updates" =
      some ((lookupA exPayloadC1 "updates").getD (.arr [])) :=
  have h := claim_C1 "2024-01-02" exPayloadC1 "Rocket" rfl (by decide)
  ⟨h.2.1 "generatedAt" (by decide) (by decide), h.2.2.1, h.2.2.2⟩

/-- Claim C2 (counterexample): the claim states that a successful
`add_update` changes the stored `generatedAt`.  On a concrete idea whose
`generatedAt` is `"g"`, `add_update` succeeds and the stored `generatedAt`
is still `"g"` — the code never touches that field. -/
theorem claim_C2_counterexample :
    add_update exStC2 "2024-05-05" exPayC2 = some exStC2' ∧
    fieldAt exStC2' "x" "generatedAt" = fieldAt exStC2 "x" "generatedAt" :=
  ⟨rfl, rfl⟩

/-- Claim C2 (amended): a successful `add_update` leaves the idea's stored
`generatedAt` field unchanged (the handler rewrites only `updates`). -/
theorem claim_C2 (st : St) (today : String) (data : Obj) (st' : St)
    (h : add_update st today data = some st') :
    fieldAt st' (clean (titleRefStr data)) "generatedAt" =
      fieldAt st (clean (titleRefStr data)) "generatedAt" :=
  (add_update_effect st today data st' h).2 "generatedAt" (by decide)

/-- Witness for claim C2 at a concrete state and update request. -/
theorem claim_C2_witness :
    fieldAt exStC2' (clean (titleRefStr exPayC2)) "generatedAt" =
      fieldAt exStC2 (clean (titleRefStr exPayC2)) "generatedAt" :=
  claim_C2 exStC2 "2024-05-05" exPayC2 exStC2' rfl

/-- Claim C3 (counterexample): the claim states that `clean` keeps exactly
the ASCII class `[A-Za-z0-9 _-]`.  Python's `str.isalnum` is Unicode-aware:
on `"é"` the code keeps the letter é, while the claimed ASCII filter would
remove it. -/
theorem claim_C3_counterexample : clean "é" ≠ specCleanAscii "é" := by decide

/-- Claim C3 (amended): `clean` keeps exactly the characters that are
Unicode alphanumerics (Python `str.isalnum`) or in `" _-"`, and then trims
leading and trailing whitespace. -/
theorem claim_C3 (s : String) : clean s = specCleanUnicode s :=
  clean_eq_specCleanUnicode s

/-- Claim C9: `clean` is idempotent. -/
theorem claim_C9 (s : String) : clean (clean s) = clean s :=
  clean_clean s

/-- Claim C4 (counterexample): the claim states signup rejects with 400
exactly when username or password is empty after trimming.  The code never
trims the password: signup with username `"alice"` and the whitespace-only
password `" "` is not rejected, although the trimmed password is empty. -/
theorem claim_C4_counterexample :
    signup [] "2024-01-01" (some "alice") (some " ") ≠ SignupOut.badRequest ∧
    pyStrip " " = "" := ⟨by decide, rfl⟩

/-- Claim C4 (amended): signup fails with 400 if and only if the username
is empty after trimming or the password is empty as given (untrimmed); a
whitespace-only password is accepted. -/
theorem claim_C4 (users : Users) (now : String) (username password : Option String) :
    signup users now username password = .badRequest ↔
      (pyStrip (username.getD "") = "" ∨ password.getD "" = "") := by
  unfold signup
  dsimp only []
  constructor
  · intro hs
    by_contra hc
    rw [if_neg hc] at hs
    split at hs <;> simp at hs
  · intro hor
    rw [if_pos hor]

/-- Claim C5 (counterexample): the claim states the first `create` of a
title returns the sanitized title itself.  For the title `"!"` the
sanitized title is `""`; `os.path.join(IDEAS, '')` denotes the existing
ideas directory, so the loop starts disambiguating at once and the first
returned folder is `" (2)"`, not `""`. -/
theorem claim_C5_counterexample :
    (runCreates "!" "2024-01-01" 1).fst = [" (2)"] ∧ " (2)" ≠ clean "!" :=
  ⟨rfl, by decide⟩

/-- Claim C5 (amended): starting from the empty store, for every title
whose sanitized form is non-empty, `k` `create` calls with that title
return, in call order, the folder names `clean t`, `clean t (2)`, …,
`clean t (k)` (the smallest unused disambiguator at each step), and these
names are pairwise distinct. -/
theorem claim_C5 (t today : String) (h : clean t ≠ "") (k : Nat) :
    (runCreates t today k).fst =
      (List.range k).map (fun j => cand (clean t) (j + 1)) ∧
    List.Pairwise (fun a b => a ≠ b) (runCreates t today k).fst := by
  obtain ⟨h1, _⟩ := runCreates_spec t today h k
  refine ⟨h1, ?_⟩
  rw [h1]
  exact cands_pairwise (clean t) k

/-- Witness for claim C5: two creations of `"Rocket engine"`. -/
theorem claim_C5_witness :
    (runCreates "Rocket engine" "2024-01-01" 2).fst =
      (List.range 2).map (fun j => cand (clean "Rocket engine") (j + 1)) ∧
    List.Pairwise (fun a b => a ≠ b) (runCreates "Rocket engine" "2024-01-01" 2).fst :=
  claim_C5 "Rocket engine" "2024-01-01" (by decide) 2

/-- Claim C6: credential-store round-trip — saving a non-empty user
mapping and loading it back returns an equal mapping. -/
theorem claim_C6 (m : Users) (hm : m ≠ []) :
    load_users (save_users m) = .ok m :=
  load_save_users m

/-- Witness for claim C6 at a concrete one-user mapping. -/
theorem claim_C6_witness :
    [("alice", exUserC6)] ≠ ([] : Users) ∧
    load_users (save_users [("alice", exUserC6)]) = .ok [("alice", exUserC6)] :=
  ⟨by decide, claim_C6 [("alice", exUserC6)] (by decide)⟩

/-- Claim C7: the sanitized folder key contains no path separator and no
dot, so the paths built by `get_idea`, `delete_idea` and the PDF read path
(`IDEAS / clean folder`, optionally followed by `idea.json` / `idea.pdf`)
always resolve to the ideas directory or below it — no traversal. -/
theorem claim_C7 (base : List String) (folder : String) :
    ('/' ∉ (clean folder).data ∧ '\\' ∉ (clean folder).data ∧
      '.' ∉ (clean folder).data) ∧
    (∃ rest, resolveArgs base [clean folder] = base ++ rest) ∧
    (∃ rest, resolveArgs base [clean folder, "idea.json"] = base ++ rest) ∧
    (∃ rest, resolveArgs base [clean folder, "idea.pdf"] = base ++ rest) := by
  refine ⟨clean_no_sep_dot folder, ?_, ?_, ?_⟩
  · obtain ⟨r, hr⟩ := resolveArg_clean base folder
    exact ⟨r, hr⟩
  · obtain ⟨r, hr⟩ := resolveArg_clean base folder
    refine ⟨r ++ ["idea.json"], ?_⟩
    show resolveArg (resolveArg base (clean folder)) "idea.json" = _
    rw [hr, resolveArg_ideaJson, List.append_assoc]
  · obtain ⟨r, hr⟩ := resolveArg_clean base folder
    refine ⟨r ++ ["idea.pdf"], ?_⟩
    show resolveArg (resolveArg base (clean folder)) "idea.pdf" = _
    rw [hr, resolveArg_ideaPdf, List.append_assoc]

/-- Claim C8: a successful `add_update` appends exactly one entry,
`{date: today, text: supplied text}`, to the stored `updates` sequence,
leaving the prior entries unchanged and in order; the length grows by one. -/
theorem claim_C8 (st : St) (today : String) (data : Obj) (st' : St)
    (h : add_update st today data = some st') :
    updatesOf st' (clean (titleRefStr data)) =
      updatesOf st (clean (titleRefStr data)) ++
        [JVal.obj [("date", JVal.str today), ("text", txtOf data)]] ∧
    (updatesOf st' (clean (titleRefStr data))).length =
      (updatesOf st (clean (titleRefStr data))).length + 1 := by
  have he := (add_update_effect st today data st' h).1
  exact ⟨he, by rw [he]; simp⟩

/-- Witness for claim C8 at a concrete state with one prior update. -/
theorem claim_C8_witness :
    updatesOf exStC8' (clean (titleRefStr exPayC8)) =
      updatesOf exStC8 (clean (titleRefStr exPayC8)) ++
        [JVal.obj [("date", JVal.str "2024-06-06"), ("text", txtOf exPayC8)]] ∧
    (updatesOf exStC8' (clean (titleRefStr exPayC8))).length =
      (updatesOf exStC8 (clean (titleRefStr exPayC8))).length + 1 :=
  claim_C8 exStC8 "2024-06-06" exPayC8 exStC8' rfl

/-- Claim C10: because the `dateCreated` default is applied with a Python
truthiness test, a successful `create` replaces a falsy caller-supplied
`dateCreated` (in particular the empty string) with today's date in the
stored record. -/
theorem claim_C10 (st : St) (today : String) (data : Obj) (t : String)
    (ht : lookupA data "title" = some (.str t)) (htt : t ≠ "")
    (hdc : jTruthy ((lookupA data "dateCreated").getD .null) = false) :
    (saveDoc st today data).bind (fun o => lookupA o "dateCreated") =
      some (.str today) := by
  rw [saveDoc_eq st today data t ht htt]
  show lookupA (savedObj data today) "dateCreated" = _
  rw [lookupA_savedObj_dateCreated]
  unfold dcVal
  rcases hl : lookupA data "dateCreated" with _ | dv
  · rfl
  · rw [hl] at hdc
    simp only [Option.getD] at hdc
    dsimp only []
    rw [if_neg (by simp [hdc])]

/-- Witness for claim C10: a payload supplying `dateCreated = ""`. -/
theorem claim_C10_witness :
    (saveDoc emptySt "2024-02-03"
        [("title", JVal.str "T"), ("dateCreated", JVal.str "")]).bind
      (fun o => lookupA o "dateCreated") = some (.str "2024-02-03") :=
  claim_C10 emptySt "2024-02-03"
    [("title", JVal.str "T"), ("dateCreated", JVal.str "")] "T" rfl
    (by decide) rfl

end IdeaJournal
